import Mathlib

/-!
A verification development for the forward-model-runner CLI and the
test-side driver utilities of the `ert` repository.

The definitions below are a shallow embedding of:
  * `src/_ert/forward_model_runner/cli.py`
      (`_setup_reporters`, `_read_jobs_file`, `main`,
       `_report_all_messages`, `_stop_reporters_and_sigkill`,
       `_stop_reporters`), and
  * `tests/ert/utils.py`
      (`MockZMQServer._handler`, `poll`).

Effectful Python operations are modelled by explicit traces of events,
and external state (the filesystem, the inbound event queue, frame
arrival) is modelled by explicit inputs.
-/

/-- Status messages produced by the job runner and consumed by
`_report_all_messages`.  The delivery loop only inspects whether a message
is a `Finish` and its success flag; the other variants and fields mirror
the message model (`Start`, `Running` with a resource snapshot,
`Exited` with a return code). -/
inductive Msg
  | start (stepIdx : Nat)
  | running (stepIdx : Nat) (rss : Nat)
  | exited (stepIdx : Nat) (code : Int)
  | finish (success : Bool)
deriving DecidableEq

/-- `isinstance(msg, Finish) and not msg.success()` from
`_report_all_messages`. -/
def isFailedFinish : Msg → Bool
  | .finish s => !s
  | _ => false

/-- One reporter in the active list.  `rid` identifies the instance,
`isEvent` is `isinstance(reporter, reporting.Event)`, and `ok m` tells
whether `reporter.report(m)` returns normally (`true`) or raises
(`false`). -/
structure Reporter where
  rid : Nat
  isEvent : Bool
  ok : Msg → Bool

/-- The reporters that survive delivery of one message: the `while`
loop of `_report_all_messages` keeps exactly the reporters whose
`report(msg)` did not raise, in order. -/
def stepActive (m : Msg) (rs : List Reporter) : List Reporter :=
  rs.filter fun r => r.ok m

/-- Observable actions of the delivery loop: a `report` invocation
(`attempt`, tagged with the message index), removal of a failed
reporter (`del reporters[i]`, together with the `logger.exception`
record), a `stop()` invocation, and the `os.killpg(..., SIGKILL)`. -/
inductive Ev
  | attempt (rid : Nat) (msgIdx : Nat)
  | removed (rid : Nat)
  | stopped (rid : Nat)
  | killed
deriving DecidableEq

/-- Delivery of one message (index `j`) to the reporter list: the inner
`while i < len(reporters)` loop of `_report_all_messages`.  On success
the loop advances (`i += 1`); on an exception the reporter is deleted
in place, its `stop()` is invoked if it is the Event sink, and the
failure is recorded, after which the same message continues with the
remaining reporters. -/
def deliverMsg (j : Nat) (m : Msg) : List Reporter → List Reporter × List Ev
  | [] => ([], [])
  | r :: rs =>
    let rest := deliverMsg j m rs
    if r.ok m then
      (r :: rest.1, Ev.attempt r.rid j :: rest.2)
    else
      (rest.1,
        Ev.attempt r.rid j :: Ev.removed r.rid ::
          ((if r.isEvent then [Ev.stopped r.rid] else []) ++ rest.2))

/-- `_stop_reporters`: invokes `stop()` on each reporter that is an
Event sink (the `isinstance(reporter, reporting.Event)` guard). -/
def stopReporters (rs : List Reporter) : List Ev :=
  (rs.filter fun r => r.isEvent).map fun r => Ev.stopped r.rid

/-- `_stop_reporters_and_sigkill`: stop the Event reporters, then
`os.killpg(os.getpgid(os.getpid()), signal.SIGKILL)`. -/
def stopReportersAndSigkill (rs : List Reporter) : List Ev :=
  stopReporters rs ++ [Ev.killed]

/-- The `signal.SIGTERM` handler installed by `main`:
`lambda _, __: _stop_reporters_and_sigkill(reporters)`. -/
def sigtermHandler (rs : List Reporter) : List Ev :=
  stopReportersAndSigkill rs

/-- `_report_all_messages`, with `j` the index of the first message
still to deliver.  Each message is delivered to the active reporters;
after delivery, a `Finish` with `success()` false triggers
`_stop_reporters_and_sigkill`, which SIGKILLs the process group, so no
later message is processed.  Returns the surviving reporters and the
event trace. -/
def reportAllAux (j : Nat) : List Msg → List Reporter → List Reporter × List Ev
  | [], rs => (rs, [])
  | m :: ms, rs =>
    let d := deliverMsg j m rs
    if isFailedFinish m then
      (d.1, d.2 ++ stopReportersAndSigkill d.1)
    else
      let rest := reportAllAux (j + 1) ms d.1
      (rest.1, d.2 ++ rest.2)

/-- `_report_all_messages(messages, reporters)` run from the start. -/
def reportAllMessages (msgs : List Msg) (rs : List Reporter) : List Reporter × List Ev :=
  reportAllAux 0 msgs rs

/-- The reporters active when the message of index `d` is about to be
delivered.  After a failed `Finish` the process group is dead, so the
active set is empty for all later indices. -/
def activeAt : List Msg → List Reporter → Nat → List Reporter
  | _, rs, 0 => rs
  | [], rs, _ + 1 => rs
  | m :: ms, rs, d + 1 =>
    if isFailedFinish m then [] else activeAt ms (stepActive m rs) d

/-- The correlation fields `main` extracts from the parsed jobs file
(`jobs_data.get(...)`, which yields `None` when absent). -/
structure JobsData where
  experimentId : Option String
  ensId : Option String
  eeToken : Option String
  dispatchUrl : Option String
deriving DecidableEq

/-- What one `open`+`json.load` of `jobs.json` observes: the file is
absent, present but malformed, or parses into a `JobsData`. -/
inductive FsRead
  | notFound
  | badJson
  | found (d : JobsData)
deriving DecidableEq

/-- How `_read_jobs_file` terminates. -/
inductive ReadOutcome
  | raisedFileNotFound
  | raisedOSError
  | success (d : JobsData)
deriving DecidableEq

/-- Result of `_read_jobs_file` together with the number of `open`
attempts and the number of `_wait_for_retry` sleeps performed. -/
structure ReadRes where
  outcome : ReadOutcome
  attempts : Nat
  waits : Nat
deriving DecidableEq

/-- `_read_jobs_file(retry=False)` attempting the read numbered `k`
against filesystem history `fs`: `FileNotFoundError` is re-raised,
`json.JSONDecodeError` becomes `OSError`, otherwise the parsed data is
returned.  No wait, no further attempt. -/
def readJobsFileNoRetry (fs : Nat → FsRead) (k : Nat) : ReadRes :=
  match fs k with
  | .found d => ⟨.success d, 1, 0⟩
  | .badJson => ⟨.raisedOSError, 1, 0⟩
  | .notFound => ⟨.raisedFileNotFound, 1, 0⟩

/-- `_read_jobs_file()` (the default `retry=True` call): on
`FileNotFoundError` it logs, sleeps `JOBS_JSON_RETRY_TIME`, and calls
itself once with `retry=False`; a decode failure raises `OSError`
immediately. -/
def readJobsFile (fs : Nat → FsRead) : ReadRes :=
  match fs 0 with
  | .found d => ⟨.success d, 1, 0⟩
  | .badJson => ⟨.raisedOSError, 1, 0⟩
  | .notFound =>
    let r := readJobsFileNoRetry fs 1
    ⟨r.outcome, r.attempts + 1, r.waits + 1⟩

/-- The kind of reporter constructed by `_setup_reporters`; the Event
sink carries the constructor arguments `evaluator_url=dispatch_url`
and `token=ee_token`. -/
inductive RepKind
  | interactive
  | file
  | event (url : Option String) (token : Option String)
deriving DecidableEq

/-- Whether a constructed reporter is the Event (network) sink. -/
def isEventKind : RepKind → Bool
  | .event _ _ => true
  | _ => false

/-- Python truthiness of the `ens_id` value (`None` and the empty
string are falsy). -/
def pyTruthy : Option String → Bool
  | none => false
  | some s => !(s == "")

/-- `_setup_reporters`: interactive runs get the Interactive sink
alone; otherwise `File`, plus `Event` exactly when
`ens_id and experiment_id is None`. -/
def setupReporters (isInteractiveRun : Bool) (ensId : Option String)
    (dispatchUrl : Option String) (eeToken : Option String)
    (experimentId : Option String) : List RepKind :=
  if isInteractiveRun then [RepKind.interactive]
  else if pyTruthy ensId && experimentId.isNone then
    [RepKind.file, RepKind.event dispatchUrl eeToken]
  else [RepKind.file]

/-- The reporter set as `main` builds it:
`is_interactive_run = len(parsed_args.job) > 0`. -/
def setupReportersForJobs (jobNames : List String) (ensId : Option String)
    (dispatchUrl : Option String) (eeToken : Option String)
    (experimentId : Option String) : List RepKind :=
  setupReporters (decide (0 < jobNames.length)) ensId dispatchUrl eeToken experimentId

/-- Observable milestones of `main`, in program order. -/
inductive MainAct
  | chdirAct (p : String)
  | setupLoggingAct
  | readJobsAct
  | installSigtermAct
  | runLoopAct
deriving DecidableEq

/-- How `main` terminates in the model: `sys.exit(message)` (exit code
1 with the message printed), a propagated `_read_jobs_file` error, or
reaching the delivery loop with the constructed reporters. -/
inductive MainOutcome
  | exited (code : Nat) (msg : String)
  | readFailed (o : ReadOutcome)
  | ran (reps : List RepKind)
deriving DecidableEq

/-- The environment `main` runs against: `os.path.exists` and the
jobs-file history. -/
structure MainEnv where
  pathExists : String → Bool
  fs : Nat → FsRead

/-- The tail of `main` after the working-directory check: set up
logging, read `jobs.json`, build the reporters, install the SIGTERM
handler and enter the delivery loop. -/
def mainAfterChdir (env : MainEnv) (jobNames : List String) (acts : List MainAct) :
    MainOutcome × List MainAct :=
  let acts1 := acts ++ [MainAct.setupLoggingAct, MainAct.readJobsAct]
  let r := readJobsFile env.fs
  match r.outcome with
  | ReadOutcome.success d =>
    (MainOutcome.ran
        (setupReportersForJobs jobNames d.ensId d.dispatchUrl d.eeToken d.experimentId),
      acts1 ++ [MainAct.installSigtermAct, MainAct.runLoopAct])
  | o => (MainOutcome.readFailed o, acts1)

/-- `main(args)` after argument parsing: when `run_path` is given and
does not exist, `sys.exit(f"No such directory: {run_path}")` fires
before anything else; otherwise the program (optionally) changes
directory and proceeds. -/
def mainModel (env : MainEnv) (runPath : Option String) (jobNames : List String) :
    MainOutcome × List MainAct :=
  match runPath with
  | none => mainAfterChdir env jobNames []
  | some p =>
    if env.pathExists p then mainAfterChdir env jobNames [MainAct.chdirAct p]
    else (MainOutcome.exited 1 ("No such directory: " ++ p), [])

/-- A frame received by `MockZMQServer._handler`: the `CONNECT_MSG` or
`DISCONNECT_MSG` handshake frames, or a data frame carrying a
serialized message. -/
inductive Frame
  | connectMsg
  | disconnectMsg
  | dataMsg (payload : String)
deriving DecidableEq

/-- `frame in {CONNECT_MSG, DISCONNECT_MSG}`. -/
def frameIsHandshake : Frame → Bool
  | .connectMsg => true
  | .disconnectMsg => true
  | .dataMsg _ => false

/-- `frame.decode("utf-8")` of the raw frame bytes. -/
def framePayload : Frame → String
  | .dataMsg s => s
  | .connectMsg => "CONNECT"
  | .disconnectMsg => "DISCONNECT"

/-- What `_handler` does with one received frame. -/
structure HandleRes where
  ackSent : Bool
  recorded : Option String
deriving DecidableEq

/-- One iteration of `MockZMQServer._handler` with the current signal
value `v`: send `ACK_MSG` iff the frame is a handshake or `v == 0`;
append the decoded frame to `self.messages` iff it is not a handshake
and `v != 1`. -/
def handleFrame (v : Nat) (f : Frame) : HandleRes :=
  { ackSent := frameIsHandshake f || v == 0
    recorded :=
      if !frameIsHandshake f && !(v == 1) then some (framePayload f) else none }

/-- The `_handler` loop over a finite arrival sequence, each frame
paired with the signal value in force when it is received.  Returns
the recorded `self.messages` and the per-frame ack decision. -/
def mockHandler : List (Frame × Nat) → List String × List Bool
  | [] => ([], [])
  | p :: ps =>
    let h := handleFrame p.2 p.1
    let rest := mockHandler ps
    (match h.recorded with
      | some s => s :: rest.1
      | none => rest.1,
     h.ackSent :: rest.2)

/-- Events arriving on `driver.event_queue` (scheduler-side). -/
inductive PEvent
  | started (iens : Nat)
  | finished (iens : Nat) (returncode : Int)
deriving DecidableEq

/-- Observable calls made by the `poll` helper of `tests/ert/utils.py`. -/
inductive DriverCall
  | startPollTask
  | calledStarted (iens : Nat)
  | calledFinished (iens : Nat) (returncode : Int)
  | cancelPollTask
  | awaitDriverFinish
deriving DecidableEq

/-- How the `while True` loop of `poll` ends on a finite queue
history: the break (`completed == expected`), an exception raised by a
callback, or suspension forever on an empty queue. -/
inductive PollOutcome
  | completed
  | errored
  | blocked
deriving DecidableEq

/-- Result of running `poll`: outcome, call trace, number of queue
items consumed, and the final `completed` set. -/
structure PollRes where
  outcome : PollOutcome
  calls : List DriverCall
  consumed : Nat
  completedSet : List Nat
deriving DecidableEq

/-- Python set equality (`completed == expected`) on the list model of
sets. -/
def setEq (a b : List Nat) : Bool :=
  (a.all fun x => x ∈ b) && (b.all fun x => x ∈ a)

/-- The `while True` body of `poll`: take the next event from the
queue; on `StartedEvent` call `started` if given; on `FinishedEvent`
call `finished` if given, add the index to `completed`, and break when
`completed == expected`.  A callback whose behaviour function yields
`false` models a raise out of the loop. -/
def pollAux (expected : List Nat) (scb : Option (Nat → Bool))
    (fcb : Option (Nat → Int → Bool)) :
    List PEvent → List Nat → PollRes
  | [], comp => ⟨.blocked, [], 0, comp⟩
  | PEvent.started i :: es, comp =>
    match scb with
    | none =>
      let r := pollAux expected scb fcb es comp
      ⟨r.outcome, r.calls, r.consumed + 1, r.completedSet⟩
    | some f =>
      if f i then
        let r := pollAux expected scb fcb es comp
        ⟨r.outcome, DriverCall.calledStarted i :: r.calls, r.consumed + 1, r.completedSet⟩
      else ⟨.errored, [DriverCall.calledStarted i], 1, comp⟩
  | PEvent.finished i rc :: es, comp =>
    match fcb with
    | none =>
      if setEq (comp.insert i) expected then ⟨.completed, [], 1, comp.insert i⟩
      else
        let r := pollAux expected scb fcb es (comp.insert i)
        ⟨r.outcome, r.calls, r.consumed + 1, r.completedSet⟩
    | some g =>
      if g i rc then
        if setEq (comp.insert i) expected then
          ⟨.completed, [DriverCall.calledFinished i rc], 1, comp.insert i⟩
        else
          let r := pollAux expected scb fcb es (comp.insert i)
          ⟨r.outcome, DriverCall.calledFinished i rc :: r.calls, r.consumed + 1,
            r.completedSet⟩
      else ⟨.errored, [DriverCall.calledFinished i rc], 1, comp⟩

/-- The call made for a consumed event when both callbacks are given. -/
def evCall : PEvent → DriverCall
  | .started i => DriverCall.calledStarted i
  | .finished i rc => DriverCall.calledFinished i rc

/-- `poll(driver, expected, started=scb, finished=fcb)` on a finite
queue history: `asyncio.create_task(driver.poll())` first, then the
loop; the `finally` block (`poll_task.cancel(); await driver.finish()`)
runs whenever the loop is left, i.e. unless the loop is suspended
forever on an empty queue. -/
def poll (expected : List Nat) (scb : Option (Nat → Bool))
    (fcb : Option (Nat → Int → Bool)) (events : List PEvent) : PollRes :=
  let r := pollAux expected scb fcb events []
  if r.outcome = PollOutcome.blocked then
    ⟨r.outcome, DriverCall.startPollTask :: r.calls, r.consumed, r.completedSet⟩
  else
    ⟨r.outcome,
      DriverCall.startPollTask ::
        (r.calls ++ [DriverCall.cancelPollTask, DriverCall.awaitDriverFinish]),
      r.consumed, r.completedSet⟩

/-- Concrete Event-sink reporter that raises on `Running` messages. -/
def wRepA : Reporter :=
  ⟨0, true, fun m => match m with | Msg.running _ _ => false | _ => true⟩

/-- Concrete non-Event reporter that never raises. -/
def wRepB : Reporter := ⟨1, false, fun _ => true⟩

/-- Concrete message sequence of a successful one-step run. -/
def wMsgs : List Msg :=
  [Msg.start 0, Msg.running 0 100, Msg.exited 0 0, Msg.finish true]

/-- Concrete reporter list for the delivery-loop witnesses. -/
def wReps : List Reporter := [wRepA, wRepB]

/-- A concrete non-Event reporter (the File sink) that never raises. -/
def fileOnlyReporter : Reporter := ⟨0, false, fun _ => true⟩

/-- A concrete environment whose working directories never exist. -/
def wEnvNoDir : MainEnv := ⟨fun _ => false, fun _ => FsRead.notFound⟩

/-- A filesystem history on which `jobs.json` never appears. -/
def wFsAbsent : Nat → FsRead := fun _ => FsRead.notFound

/-- A filesystem history on which `jobs.json` holds malformed JSON. -/
def wFsBadJson : Nat → FsRead := fun _ => FsRead.badJson

/-- A filesystem history on which `jobs.json` is first absent and then
appears holding malformed JSON. -/
def wFsLateBad : Nat → FsRead := fun n =>
  match n with
  | 0 => FsRead.notFound
  | _ + 1 => FsRead.badJson

/-- The queue history of the driver-consumer example: realizations
{0,1,2}. -/
def wPollEvents : List PEvent :=
  [PEvent.started 0, PEvent.started 1, PEvent.finished 1 0,
   PEvent.started 2, PEvent.finished 0 1, PEvent.finished 2 0]

/-- The expected realization indices of the driver-consumer example. -/
def wExpected : List Nat := [0, 1, 2]

/-- A queue history delivering a finish for a realization index outside
the expected set. -/
def w8Events : List PEvent := [PEvent.finished 5 0]

/-- A started callback that always returns normally. -/
def wScb : Option (Nat → Bool) := some fun _ => true

/-- A finished callback that always returns normally. -/
def wFcb : Option (Nat → Int → Bool) := some fun _ _ => true

/-- Helper: `wFsLateBad` models a race in which the file appears after
the retry wait but holds malformed JSON. -/
theorem wFsLateBad_spec : wFsLateBad 0 = FsRead.notFound ∧ wFsLateBad 1 = FsRead.badJson :=
  ⟨rfl, rfl⟩

/-- C4: Connect and Disconnect frames are always acked by the mock
collector regardless of the signal value; a data frame is acked iff the
signal is 0 (normal operation); a data frame is recorded iff the signal
is not 1; and the handler answers every received frame according to
this per-frame policy. -/
theorem mock_collector_ack_policy (f : Frame) (v : Nat) :
    (frameIsHandshake f = true → (handleFrame v f).ackSent = true)
  ∧ (∀ s, f = Frame.dataMsg s → ((handleFrame v f).ackSent = true ↔ v = 0))
  ∧ (∀ s, f = Frame.dataMsg s → ((handleFrame v f).recorded = some s ↔ v ≠ 1))
  ∧ (∀ ps : List (Frame × Nat),
      (mockHandler ps).2 = ps.map fun p => (handleFrame p.2 p.1).ackSent) := by
  refine ⟨?_, ?_, ?_, ?_⟩
  · intro h
    simp [handleFrame, h]
  · rintro s rfl
    simp [handleFrame, frameIsHandshake]
  · rintro s rfl
    by_cases h : v = 1 <;> simp [handleFrame, frameIsHandshake, framePayload, h]
  · intro ps
    induction ps with
    | nil => rfl
    | cons p ps ih => simp [mockHandler, ih]

/-- Witness for C4 at concrete frames and signal values. -/
theorem mock_collector_ack_policy_witness :
    (handleFrame 1 Frame.connectMsg).ackSent = true
  ∧ ((handleFrame 2 (Frame.dataMsg "m")).ackSent = true ↔ (2 : Nat) = 0)
  ∧ ((handleFrame 1 (Frame.dataMsg "m")).recorded = some "m" ↔ (1 : Nat) ≠ 1) :=
  ⟨(mock_collector_ack_policy Frame.connectMsg 1).1 rfl,
   (mock_collector_ack_policy (Frame.dataMsg "m") 2).2.1 "m" rfl,
   (mock_collector_ack_policy (Frame.dataMsg "m") 1).2.2.1 "m" rfl⟩

/-- C5: if `jobs.json` is absent on the first attempt and still absent
after the single retry wait, `_read_jobs_file` raises
`FileNotFoundError` after exactly two attempts and one wait; and on
every filesystem history the reader makes at most two attempts — there
is never a second retry. -/
theorem jobs_file_single_retry (fs : Nat → FsRead)
    (h0 : fs 0 = FsRead.notFound) (h1 : fs 1 = FsRead.notFound) :
    readJobsFile fs = ⟨ReadOutcome.raisedFileNotFound, 2, 1⟩
  ∧ ∀ g : Nat → FsRead, (readJobsFile g).attempts ≤ 2 := by
  constructor
  · simp [readJobsFile, readJobsFileNoRetry, h0, h1]
  · intro g
    cases hg0 : g 0 <;> cases hg1 : g 1 <;>
      simp [readJobsFile, readJobsFileNoRetry, hg0, hg1]

/-- Witness for C5: the file never appears. -/
theorem jobs_file_single_retry_witness :
    readJobsFile wFsAbsent = ⟨ReadOutcome.raisedFileNotFound, 2, 1⟩ :=
  (jobs_file_single_retry wFsAbsent rfl rfl).1

/-- C9: if the jobs file exists but holds malformed JSON, the reader
raises `OSError` immediately — one attempt, no wait, no retry; and even
after a not-found retry, a decode failure on the second attempt raises
immediately with no further retry. -/
theorem jobs_file_decode_error_immediate (fs : Nat → FsRead)
    (h0 : fs 0 = FsRead.badJson) :
    readJobsFile fs = ⟨ReadOutcome.raisedOSError, 1, 0⟩
  ∧ ∀ g : Nat → FsRead, g 0 = FsRead.notFound → g 1 = FsRead.badJson →
      readJobsFile g = ⟨ReadOutcome.raisedOSError, 2, 1⟩ := by
  constructor
  · simp [readJobsFile, h0]
  · intro g hg0 hg1
    simp [readJobsFile, readJobsFileNoRetry, hg0, hg1]

/-- Witness for C9: malformed JSON from the first attempt on. -/
theorem jobs_file_decode_error_immediate_witness :
    readJobsFile wFsBadJson = ⟨ReadOutcome.raisedOSError, 1, 0⟩
  ∧ readJobsFile wFsLateBad = ⟨ReadOutcome.raisedOSError, 2, 1⟩ :=
  ⟨(jobs_file_decode_error_immediate wFsBadJson rfl).1,
   (jobs_file_decode_error_immediate wFsBadJson rfl).2 wFsLateBad
     wFsLateBad_spec.1 wFsLateBad_spec.2⟩

/-- C7: if the working-directory argument is given and the path does
not exist, `main` exits at once with exit status 1 and a message naming
the missing directory, before reading the jobs descriptor, installing
the signal handler, or starting the delivery loop. -/
theorem missing_workdir_fatal (env : MainEnv) (p : String) (jobNames : List String)
    (h : env.pathExists p = false) :
    mainModel env (some p) jobNames
        = (MainOutcome.exited 1 ("No such directory: " ++ p), [])
  ∧ MainAct.readJobsAct ∉ (mainModel env (some p) jobNames).2
  ∧ MainAct.runLoopAct ∉ (mainModel env (some p) jobNames).2 := by
  have he : mainModel env (some p) jobNames
      = (MainOutcome.exited 1 ("No such directory: " ++ p), []) := by
    simp [mainModel, h]
  refine ⟨he, ?_, ?_⟩ <;> simp [he]

/-- Witness for C7: a concrete environment with no directories. -/
theorem missing_workdir_fatal_witness :
    mainModel wEnvNoDir (some "runpath") []
      = (MainOutcome.exited 1 ("No such directory: " ++ "runpath"), []) :=
  (missing_workdir_fatal wEnvNoDir "runpath" [] rfl).1

/-- C6: with one or more step names the reporter set is exactly the
Interactive sink; with zero step names it is the File sink alone or the
File sink followed by one Event sink; and in all cases the set contains
at most one Event sink. -/
theorem reporter_set_shape (jobNames : List String)
    (ensId dispatchUrl eeToken experimentId : Option String) :
    (jobNames ≠ [] →
       setupReportersForJobs jobNames ensId dispatchUrl eeToken experimentId
         = [RepKind.interactive])
  ∧ (jobNames = [] →
       setupReportersForJobs jobNames ensId dispatchUrl eeToken experimentId
           = [RepKind.file]
       ∨ setupReportersForJobs jobNames ensId dispatchUrl eeToken experimentId
           = [RepKind.file, RepKind.event dispatchUrl eeToken])
  ∧ (setupReportersForJobs jobNames ensId dispatchUrl eeToken experimentId).countP
        isEventKind ≤ 1 := by
  refine ⟨?_, ?_, ?_⟩
  · intro h
    cases jobNames with
    | nil => exact absurd rfl h
    | cons a as => simp [setupReportersForJobs, setupReporters]
  · intro h
    subst h
    by_cases hc : (pyTruthy ensId && experimentId.isNone) = true
    · right
      simp [setupReportersForJobs, setupReporters, hc]
    · left
      simp [setupReportersForJobs, setupReporters, hc]
  · cases jobNames with
    | nil =>
      by_cases hc : (pyTruthy ensId && experimentId.isNone) = true <;>
        simp [setupReportersForJobs, setupReporters, hc, isEventKind,
          List.countP_cons]
    | cons a as =>
      simp [setupReportersForJobs, setupReporters, isEventKind, List.countP_cons]

/-- Witness for C6 at concrete argument vectors. -/
theorem reporter_set_shape_witness :
    setupReportersForJobs ["stepA"] none none none none = [RepKind.interactive]
  ∧ (setupReportersForJobs [] (some "ens") none none none = [RepKind.file]
     ∨ setupReportersForJobs [] (some "ens") none none none
         = [RepKind.file, RepKind.event none none]) :=
  ⟨(reporter_set_shape ["stepA"] none none none none).1 (List.cons_ne_nil _ _),
   (reporter_set_shape [] (some "ens") none none none).2.1 rfl⟩

/-- C10: in non-interactive mode an Event sink appears in the reporter
set exactly when `ens_id` is truthy and `experiment_id is None`; in
every other case the set is the File sink alone. -/
theorem event_sink_condition (ensId dispatchUrl eeToken experimentId : Option String) :
    ((∃ u t, RepKind.event u t ∈ setupReporters false ensId dispatchUrl eeToken experimentId)
        ↔ (pyTruthy ensId = true ∧ experimentId = none))
  ∧ ((experimentId ≠ none ∨ pyTruthy ensId = false) →
        setupReporters false ensId dispatchUrl eeToken experimentId = [RepKind.file]) := by
  cases experimentId with
  | none =>
    cases h1 : pyTruthy ensId with
    | false =>
      refine ⟨?_, fun _ => ?_⟩ <;> simp [setupReporters, h1]
    | true =>
      refine ⟨?_, ?_⟩
      · simp [setupReporters, h1]
      · intro h
        rcases h with h | h
        · exact absurd rfl h
        · simp [h1] at h
  | some e =>
    refine ⟨?_, fun _ => ?_⟩ <;> simp [setupReporters]

/-- Witness for C10: an experiment id is set, so only the File sink is
constructed. -/
theorem event_sink_condition_witness :
    setupReporters false (some "ens") none none (some "exp") = [RepKind.file] :=
  (event_sink_condition (some "ens") none none (some "exp")).2
    (Or.inl (by simp))

/-- Unfolding `pollAux` on an empty queue history. -/
theorem pollAux_nil (e : List Nat) (scb : Option (Nat → Bool))
    (fcb : Option (Nat → Int → Bool)) (comp : List Nat) :
    pollAux e scb fcb [] comp = ⟨.blocked, [], 0, comp⟩ := rfl

/-- Unfolding `pollAux` on a `StartedEvent` with no started callback. -/
theorem pollAux_started_none (e : List Nat) (fcb : Option (Nat → Int → Bool))
    (i : Nat) (es : List PEvent) (comp : List Nat) :
    pollAux e none fcb (PEvent.started i :: es) comp
      = ⟨(pollAux e none fcb es comp).outcome, (pollAux e none fcb es comp).calls,
         (pollAux e none fcb es comp).consumed + 1,
         (pollAux e none fcb es comp).completedSet⟩ := rfl

/-- Unfolding `pollAux` on a `StartedEvent` with a started callback. -/
theorem pollAux_started_some (e : List Nat) (f : Nat → Bool)
    (fcb : Option (Nat → Int → Bool)) (i : Nat) (es : List PEvent) (comp : List Nat) :
    pollAux e (some f) fcb (PEvent.started i :: es) comp
      = if f i then
          ⟨(pollAux e (some f) fcb es comp).outcome,
           DriverCall.calledStarted i :: (pollAux e (some f) fcb es comp).calls,
           (pollAux e (some f) fcb es comp).consumed + 1,
           (pollAux e (some f) fcb es comp).completedSet⟩
        else ⟨.errored, [DriverCall.calledStarted i], 1, comp⟩ := rfl

/-- Unfolding `pollAux` on a `FinishedEvent` with no finished callback. -/
theorem pollAux_finished_none (e : List Nat) (scb : Option (Nat → Bool))
    (i : Nat) (rc : Int) (es : List PEvent) (comp : List Nat) :
    pollAux e scb none (PEvent.finished i rc :: es) comp
      = if setEq (comp.insert i) e then ⟨.completed, [], 1, comp.insert i⟩
        else
          ⟨(pollAux e scb none es (comp.insert i)).outcome,
           (pollAux e scb none es (comp.insert i)).calls,
           (pollAux e scb none es (comp.insert i)).consumed + 1,
           (pollAux e scb none es (comp.insert i)).completedSet⟩ := rfl

/-- Unfolding `pollAux` on a `FinishedEvent` with a finished callback. -/
theorem pollAux_finished_some (e : List Nat) (scb : Option (Nat → Bool))
    (g : Nat → Int → Bool) (i : Nat) (rc : Int) (es : List PEvent) (comp : List Nat) :
    pollAux e scb (some g) (PEvent.finished i rc :: es) comp
      = if g i rc then
          if setEq (comp.insert i) e then
            ⟨.completed, [DriverCall.calledFinished i rc], 1, comp.insert i⟩
          else
            ⟨(pollAux e scb (some g) es (comp.insert i)).outcome,
             DriverCall.calledFinished i rc :: (pollAux e scb (some g) es (comp.insert i)).calls,
             (pollAux e scb (some g) es (comp.insert i)).consumed + 1,
             (pollAux e scb (some g) es (comp.insert i)).completedSet⟩
        else ⟨.errored, [DriverCall.calledFinished i rc], 1, comp⟩ := rfl

/-- Membership transport along Python set equality, left to right. -/
theorem setEq_mem_left {a b : List Nat} {x : Nat} (h : setEq a b = true) (hx : x ∈ a) :
    x ∈ b := by
  simp [setEq, List.all_eq_true] at h
  exact h.1 x hx

/-- Membership transport along Python set equality, right to left. -/
theorem setEq_mem_right {a b : List Nat} {x : Nat} (h : setEq a b = true) (hx : x ∈ b) :
    x ∈ a := by
  simp [setEq, List.all_eq_true] at h
  exact h.2 x hx

/-- The `completed` set of the loop only grows. -/
theorem pollAux_comp_mono (e : List Nat) (scb : Option (Nat → Bool))
    (fcb : Option (Nat → Int → Bool)) (events : List PEvent) :
    ∀ comp x, x ∈ comp → x ∈ (pollAux e scb fcb events comp).completedSet := by
  induction events with
  | nil =>
    intro comp x hx
    simpa [pollAux_nil] using hx
  | cons ev es ih =>
    intro comp x hx
    cases ev with
    | started i =>
      cases scb with
      | none => simpa [pollAux_started_none] using ih comp x hx
      | some f =>
        rw [pollAux_started_some]
        by_cases hf : f i = true
        · simpa [hf] using ih comp x hx
        · simpa [hf] using hx
    | finished i rc =>
      cases fcb with
      | none =>
        rw [pollAux_finished_none]
        by_cases hs : setEq (comp.insert i) e = true
        · simpa [hs] using List.mem_insert_of_mem hx
        · simpa [hs] using ih (comp.insert i) x (List.mem_insert_of_mem hx)
      | some g =>
        rw [pollAux_finished_some]
        by_cases hg : g i rc = true
        · by_cases hs : setEq (comp.insert i) e = true
          · simpa [hg, hs] using List.mem_insert_of_mem hx
          · simpa [hg, hs] using ih (comp.insert i) x (List.mem_insert_of_mem hx)
        · simpa [hg] using hx

/-- If the loop broke out normally, the break condition
`completed == expected` held at that point. -/
theorem pollAux_completed_setEq (e : List Nat) (scb : Option (Nat → Bool))
    (fcb : Option (Nat → Int → Bool)) (events : List PEvent) :
    ∀ comp, (pollAux e scb fcb events comp).outcome = PollOutcome.completed →
      setEq (pollAux e scb fcb events comp).completedSet e = true := by
  induction events with
  | nil =>
    intro comp h
    simp [pollAux_nil] at h
  | cons ev es ih =>
    intro comp h
    cases ev with
    | started i =>
      cases scb with
      | none =>
        rw [pollAux_started_none] at h ⊢
        exact ih comp h
      | some f =>
        rw [pollAux_started_some] at h ⊢
        by_cases hf : f i = true
        · rw [if_pos hf] at h ⊢
          exact ih comp h
        · rw [if_neg hf] at h
          simp at h
    | finished i rc =>
      cases fcb with
      | none =>
        rw [pollAux_finished_none] at h ⊢
        by_cases hs : setEq (comp.insert i) e = true
        · simp [hs]
        · rw [if_neg hs] at h ⊢
          exact ih (comp.insert i) h
      | some g =>
        rw [pollAux_finished_some] at h ⊢
        by_cases hg : g i rc = true
        · rw [if_pos hg] at h ⊢
          by_cases hs : setEq (comp.insert i) e = true
          · simp [hs]
          · rw [if_neg hs] at h ⊢
            exact ih (comp.insert i) h
        · rw [if_neg hg] at h
          simp at h

/-- Everything in the final `completed` set was there initially or came
from a `FinishedEvent` among the consumed queue items. -/
theorem pollAux_completedSet_sub (e : List Nat) (scb : Option (Nat → Bool))
    (fcb : Option (Nat → Int → Bool)) (events : List PEvent) :
    ∀ comp x, x ∈ (pollAux e scb fcb events comp).completedSet →
      x ∈ comp
      ∨ ∃ rc, PEvent.finished x rc ∈ events.take (pollAux e scb fcb events comp).consumed := by
  induction events with
  | nil =>
    intro comp x hx
    rw [pollAux_nil] at hx
    exact Or.inl hx
  | cons ev es ih =>
    intro comp x hx
    cases ev with
    | started i =>
      cases scb with
      | none =>
        rw [pollAux_started_none] at hx ⊢
        rcases ih comp x hx with h | ⟨rc, hrc⟩
        · exact Or.inl h
        · exact Or.inr ⟨rc, by rw [List.take_succ_cons]; exact List.mem_cons_of_mem _ hrc⟩
      | some f =>
        rw [pollAux_started_some] at hx ⊢
        by_cases hf : f i = true
        · rw [if_pos hf] at hx ⊢
          rcases ih comp x hx with h | ⟨rc, hrc⟩
          · exact Or.inl h
          · exact Or.inr ⟨rc, by rw [List.take_succ_cons]; exact List.mem_cons_of_mem _ hrc⟩
        · rw [if_neg hf] at hx
          exact Or.inl hx
    | finished i rc0 =>
      cases fcb with
      | none =>
        rw [pollAux_finished_none] at hx ⊢
        by_cases hs : setEq (comp.insert i) e = true
        · rw [if_pos hs] at hx ⊢
          rcases List.mem_insert_iff.mp hx with h | h
          · exact Or.inr ⟨rc0, by simp [h]⟩
          · exact Or.inl h
        · rw [if_neg hs] at hx ⊢
          rcases ih (comp.insert i) x hx with h | ⟨rc, hrc⟩
          · rcases List.mem_insert_iff.mp h with h | h
            · exact Or.inr ⟨rc0, by simp [h]⟩
            · exact Or.inl h
          · exact Or.inr ⟨rc, by rw [List.take_succ_cons]; exact List.mem_cons_of_mem _ hrc⟩
      | some g =>
        rw [pollAux_finished_some] at hx ⊢
        by_cases hg : g i rc0 = true
        · rw [if_pos hg] at hx ⊢
          by_cases hs : setEq (comp.insert i) e = true
          · rw [if_pos hs] at hx ⊢
            rcases List.mem_insert_iff.mp hx with h | h
            · exact Or.inr ⟨rc0, by simp [h]⟩
            · exact Or.inl h
          · rw [if_neg hs] at hx ⊢
            rcases ih (comp.insert i) x hx with h | ⟨rc, hrc⟩
            · rcases List.mem_insert_iff.mp h with h | h
              · exact Or.inr ⟨rc0, by simp [h]⟩
              · exact Or.inl h
            · exact Or.inr ⟨rc, by rw [List.take_succ_cons]; exact List.mem_cons_of_mem _ hrc⟩
        · rw [if_neg hg] at hx
          exact Or.inl hx

/-- If the loop broke out normally, every `FinishedEvent` among the
consumed queue items had its index added to the `completed` set. -/
theorem pollAux_finished_mem (e : List Nat) (scb : Option (Nat → Bool))
    (fcb : Option (Nat → Int → Bool)) (events : List PEvent) (i : Nat) (rc : Int) :
    ∀ comp, (pollAux e scb fcb events comp).outcome = PollOutcome.completed →
      PEvent.finished i rc ∈ events.take (pollAux e scb fcb events comp).consumed →
      i ∈ (pollAux e scb fcb events comp).completedSet := by
  induction events with
  | nil =>
    intro comp h _
    simp [pollAux_nil] at h
  | cons ev es ih =>
    intro comp h hmem
    cases ev with
    | started i0 =>
      cases scb with
      | none =>
        rw [pollAux_started_none] at h hmem ⊢
        rw [List.take_succ_cons] at hmem
        rcases List.mem_cons.mp hmem with hh | hh
        · cases hh
        · exact ih comp h hh
      | some f =>
        rw [pollAux_started_some] at h hmem ⊢
        by_cases hf : f i0 = true
        · rw [if_pos hf] at h hmem ⊢
          rw [List.take_succ_cons] at hmem
          rcases List.mem_cons.mp hmem with hh | hh
          · cases hh
          · exact ih comp h hh
        · rw [if_neg hf] at h
          simp at h
    | finished i0 rc0 =>
      cases fcb with
      | none =>
        rw [pollAux_finished_none] at h hmem ⊢
        by_cases hs : setEq (comp.insert i0) e = true
        · rw [if_pos hs] at hmem ⊢
          have h12 : i = i0 ∧ rc = rc0 := by simpa using hmem
          rw [h12.1]
          exact List.mem_insert_self _ _
        · rw [if_neg hs] at h hmem ⊢
          rw [List.take_succ_cons] at hmem
          rcases List.mem_cons.mp hmem with hh | hh
          · have h12 : i = i0 ∧ rc = rc0 := by simpa using hh
            rw [h12.1]
            exact pollAux_comp_mono _ _ _ _ _ _ (List.mem_insert_self _ _)
          · exact ih (comp.insert i0) h hh
      | some g =>
        rw [pollAux_finished_some] at h hmem ⊢
        by_cases hg : g i0 rc0 = true
        · rw [if_pos hg] at h hmem ⊢
          by_cases hs : setEq (comp.insert i0) e = true
          · rw [if_pos hs] at hmem ⊢
            have h12 : i = i0 ∧ rc = rc0 := by simpa using hmem
            rw [h12.1]
            exact List.mem_insert_self _ _
          · rw [if_neg hs] at h hmem ⊢
            rw [List.take_succ_cons] at hmem
            rcases List.mem_cons.mp hmem with hh | hh
            · have h12 : i = i0 ∧ rc = rc0 := by simpa using hh
              rw [h12.1]
              exact pollAux_comp_mono _ _ _ _ _ _ (List.mem_insert_self _ _)
            · exact ih (comp.insert i0) h hh
        · rw [if_neg hg] at h
          simp at h

/-- With no finished callback, nothing can raise between consuming a
`FinishedEvent` and adding its index, so every consumed finished index
ends up in the `completed` set. -/
theorem pollAux_finished_none_mem (e : List Nat) (scb : Option (Nat → Bool))
    (events : List PEvent) (i : Nat) (rc : Int) :
    ∀ comp, PEvent.finished i rc ∈ events.take (pollAux e scb none events comp).consumed →
      i ∈ (pollAux e scb none events comp).completedSet := by
  induction events with
  | nil =>
    intro comp hmem
    simp [pollAux_nil] at hmem
  | cons ev es ih =>
    intro comp hmem
    cases ev with
    | started i0 =>
      cases scb with
      | none =>
        rw [pollAux_started_none] at hmem ⊢
        rw [List.take_succ_cons] at hmem
        rcases List.mem_cons.mp hmem with hh | hh
        · cases hh
        · exact ih comp hh
      | some f =>
        rw [pollAux_started_some] at hmem ⊢
        by_cases hf : f i0 = true
        · rw [if_pos hf] at hmem ⊢
          rw [List.take_succ_cons] at hmem
          rcases List.mem_cons.mp hmem with hh | hh
          · cases hh
          · exact ih comp hh
        · rw [if_neg hf] at hmem
          simp at hmem
    | finished i0 rc0 =>
      rw [pollAux_finished_none] at hmem ⊢
      by_cases hs : setEq (comp.insert i0) e = true
      · rw [if_pos hs] at hmem ⊢
        have h12 : i = i0 ∧ rc = rc0 := by simpa using hmem
        rw [h12.1]
        exact List.mem_insert_self _ _
      · rw [if_neg hs] at hmem ⊢
        rw [List.take_succ_cons] at hmem
        rcases List.mem_cons.mp hmem with hh | hh
        · have h12 : i = i0 ∧ rc = rc0 := by simpa using hh
          rw [h12.1]
          exact pollAux_comp_mono _ _ _ _ _ _ (List.mem_insert_self _ _)
        · exact ih (comp.insert i0) hh

/-- With both callbacks given, the loop's call trace is exactly the
consumed queue items in delivery order. -/
theorem pollAux_calls_map (e : List Nat) (f : Nat → Bool) (g : Nat → Int → Bool)
    (events : List PEvent) :
    ∀ comp, (pollAux e (some f) (some g) events comp).calls
      = (events.take (pollAux e (some f) (some g) events comp).consumed).map evCall := by
  induction events with
  | nil =>
    intro comp
    simp [pollAux_nil]
  | cons ev es ih =>
    intro comp
    cases ev with
    | started i0 =>
      rw [pollAux_started_some]
      by_cases hf : f i0 = true
      · rw [if_pos hf]
        simp only [List.take_succ_cons, List.map_cons]
        rw [← ih comp]
        rfl
      · rw [if_neg hf]
        rfl
    | finished i0 rc0 =>
      rw [pollAux_finished_some]
      by_cases hg : g i0 rc0 = true
      · rw [if_pos hg]
        by_cases hs : setEq (comp.insert i0) e = true
        · rw [if_pos hs]
          rfl
        · rw [if_neg hs]
          simp only [List.take_succ_cons, List.map_cons]
          rw [← ih (comp.insert i0)]
          rfl
      · rw [if_neg hg]
        rfl

/-- The loop outcome is unchanged by the `finally` cleanup. -/
theorem poll_outcome_eq (e : List Nat) (scb : Option (Nat → Bool))
    (fcb : Option (Nat → Int → Bool)) (events : List PEvent) :
    (poll e scb fcb events).outcome = (pollAux e scb fcb events []).outcome := by
  simp only [poll]
  split <;> rfl

/-- The consumed count is unchanged by the `finally` cleanup. -/
theorem poll_consumed_eq (e : List Nat) (scb : Option (Nat → Bool))
    (fcb : Option (Nat → Int → Bool)) (events : List PEvent) :
    (poll e scb fcb events).consumed = (pollAux e scb fcb events []).consumed := by
  simp only [poll]
  split <;> rfl

/-- The `completed` set is unchanged by the `finally` cleanup. -/
theorem poll_completedSet_eq (e : List Nat) (scb : Option (Nat → Bool))
    (fcb : Option (Nat → Int → Bool)) (events : List PEvent) :
    (poll e scb fcb events).completedSet = (pollAux e scb fcb events []).completedSet := by
  simp only [poll]
  split <;> rfl

/-- When the loop suspends forever the `finally` block has not run. -/
theorem poll_calls_blocked {e : List Nat} {scb : Option (Nat → Bool)}
    {fcb : Option (Nat → Int → Bool)} {events : List PEvent}
    (h : (pollAux e scb fcb events []).outcome = PollOutcome.blocked) :
    (poll e scb fcb events).calls
      = DriverCall.startPollTask :: (pollAux e scb fcb events []).calls := by
  simp only [poll]
  rw [if_pos h]

/-- When the loop is left, by break or by a raise, the `finally` block
cancels the poll task and awaits the driver. -/
theorem poll_calls_unblocked {e : List Nat} {scb : Option (Nat → Bool)}
    {fcb : Option (Nat → Int → Bool)} {events : List PEvent}
    (h : (pollAux e scb fcb events []).outcome ≠ PollOutcome.blocked) :
    (poll e scb fcb events).calls
      = DriverCall.startPollTask ::
          ((pollAux e scb fcb events []).calls
            ++ [DriverCall.cancelPollTask, DriverCall.awaitDriverFinish]) := by
  simp only [poll]
  rw [if_neg h]

/-- C2: the poll consumer returns normally only once every expected
index has produced a `FinishedEvent` among the consumed queue items
(the break condition `completed == expected` holds); with both
callbacks given, the callbacks are invoked once per consumed event in
exact delivery order; and whenever the loop is left — normal break or
raised error — the `finally` block cancels the poll task and awaits
the driver before returning. -/
theorem driver_poll_consumer (expected : List Nat) (scb : Option (Nat → Bool))
    (fcb : Option (Nat → Int → Bool)) (events : List PEvent) :
    ((poll expected scb fcb events).outcome = PollOutcome.completed →
       setEq (poll expected scb fcb events).completedSet expected = true
       ∧ ∀ i ∈ expected, ∃ rc,
           PEvent.finished i rc ∈ events.take (poll expected scb fcb events).consumed)
  ∧ (∀ f g, scb = some f → fcb = some g →
       (poll expected scb fcb events).calls
         = DriverCall.startPollTask ::
             ((events.take (poll expected scb fcb events).consumed).map evCall
               ++ (if (poll expected scb fcb events).outcome = PollOutcome.blocked
                    then [] else [DriverCall.cancelPollTask, DriverCall.awaitDriverFinish])))
  ∧ ((poll expected scb fcb events).outcome ≠ PollOutcome.blocked →
       ∃ pre, (poll expected scb fcb events).calls
         = pre ++ [DriverCall.cancelPollTask, DriverCall.awaitDriverFinish]) := by
  refine ⟨?_, ?_, ?_⟩
  · intro hco
    rw [poll_outcome_eq] at hco
    have hset := pollAux_completed_setEq expected scb fcb events [] hco
    constructor
    · rw [poll_completedSet_eq]
      exact hset
    · intro i hi
      have hic : i ∈ (pollAux expected scb fcb events []).completedSet :=
        setEq_mem_right hset hi
      rcases pollAux_completedSet_sub expected scb fcb events [] i hic with h | ⟨rc, hrc⟩
      · cases h
      · exact ⟨rc, by rw [poll_consumed_eq]; exact hrc⟩
  · rintro f g rfl rfl
    by_cases hb : (pollAux expected (some f) (some g) events []).outcome = PollOutcome.blocked
    · rw [poll_calls_blocked hb, poll_consumed_eq, poll_outcome_eq, if_pos hb,
        List.append_nil, pollAux_calls_map expected f g events []]
    · rw [poll_calls_unblocked hb, poll_consumed_eq, poll_outcome_eq, if_neg hb,
        pollAux_calls_map expected f g events []]
  · intro hnb
    rw [poll_outcome_eq] at hnb
    refine ⟨DriverCall.startPollTask :: (pollAux expected scb fcb events []).calls, ?_⟩
    rw [poll_calls_unblocked hnb]
    simp

/-- Witness for C2: the spec's example with expected indices {0,1,2}
and six queue events, both callbacks present. -/
theorem driver_poll_consumer_witness :
    setEq (poll wExpected wScb wFcb wPollEvents).completedSet wExpected = true
  ∧ (poll wExpected wScb wFcb wPollEvents).calls
      = DriverCall.startPollTask ::
          ((wPollEvents.take (poll wExpected wScb wFcb wPollEvents).consumed).map evCall
            ++ (if (poll wExpected wScb wFcb wPollEvents).outcome = PollOutcome.blocked
                 then [] else [DriverCall.cancelPollTask, DriverCall.awaitDriverFinish])) :=
  ⟨((driver_poll_consumer wExpected wScb wFcb wPollEvents).1 (by decide)).1,
   (driver_poll_consumer wExpected wScb wFcb wPollEvents).2.1 _ _ rfl rfl⟩

/-- C8: if a `FinishedEvent` for an index outside the expected set is
consumed, the break condition `completed == expected` can never hold
afterwards, so the consumer never returns normally; and (when the
finished callback is absent, hence cannot raise first) the spurious
index does end up in the `completed` set. -/
theorem poll_unexpected_finish_never_completes (expected : List Nat)
    (scb : Option (Nat → Bool)) (fcb : Option (Nat → Int → Bool))
    (events : List PEvent) (i : Nat) (rc : Int)
    (hmem : PEvent.finished i rc ∈ events.take (poll expected scb fcb events).consumed)
    (hnot : i ∉ expected) :
    (poll expected scb fcb events).outcome ≠ PollOutcome.completed
  ∧ (fcb = none → i ∈ (poll expected scb fcb events).completedSet) := by
  constructor
  · intro hco
    rw [poll_outcome_eq] at hco
    rw [poll_consumed_eq] at hmem
    have h1 := pollAux_finished_mem expected scb fcb events i rc [] hco hmem
    exact hnot (setEq_mem_left (pollAux_completed_setEq expected scb fcb events [] hco) h1)
  · rintro rfl
    rw [poll_consumed_eq] at hmem
    rw [poll_completedSet_eq]
    exact pollAux_finished_none_mem expected scb events i rc [] hmem

/-- Witness for C8: expected set {0}, but the queue delivers a finish
for realization 5. -/
theorem poll_unexpected_finish_never_completes_witness :
    (poll [0] none none w8Events).outcome ≠ PollOutcome.completed
  ∧ 5 ∈ (poll [0] none none w8Events).completedSet :=
  ⟨(poll_unexpected_finish_never_completes [0] none none w8Events 5 0
      (by decide) (by decide)).1,
   (poll_unexpected_finish_never_completes [0] none none w8Events 5 0
      (by decide) (by decide)).2 rfl⟩

/-- Unfolding one step of the inner delivery loop. -/
theorem deliver_cons (j : Nat) (m : Msg) (r : Reporter) (rs : List Reporter) :
    deliverMsg j m (r :: rs)
      = if r.ok m then
          (r :: (deliverMsg j m rs).1, Ev.attempt r.rid j :: (deliverMsg j m rs).2)
        else
          ((deliverMsg j m rs).1,
            Ev.attempt r.rid j :: Ev.removed r.rid ::
              ((if r.isEvent then [Ev.stopped r.rid] else []) ++ (deliverMsg j m rs).2)) := rfl

/-- The reporters surviving one message are exactly those whose
`report` did not raise. -/
theorem deliver_fst (j : Nat) (m : Msg) (rs : List Reporter) :
    (deliverMsg j m rs).1 = stepActive m rs := by
  induction rs with
  | nil => rfl
  | cons r rs ih =>
    rw [deliver_cons]
    by_cases h : r.ok m = true <;> simp [h, ih, stepActive, List.filter_cons]

/-- `report` is invoked on every reporter in the list for the current
message, and only with the current message index. -/
theorem deliver_attempt_mem (j k i : Nat) (m : Msg) (rs : List Reporter) :
    Ev.attempt i k ∈ (deliverMsg j m rs).2 ↔ k = j ∧ i ∈ rs.map Reporter.rid := by
  induction rs with
  | nil => simp [deliverMsg]
  | cons r rs ih =>
    rw [deliver_cons]
    by_cases h : r.ok m = true
    · rw [if_pos h]
      simp only [List.mem_cons, Ev.attempt.injEq, ih, List.map_cons]
      tauto
    · rw [if_neg h]
      by_cases he : r.isEvent = true <;>
        simp only [he, if_true, if_false, List.mem_cons, List.mem_append,
          List.mem_singleton, Ev.attempt.injEq, ih, List.map_cons,
          reduceCtorEq, false_or, Bool.false_eq_true] <;>
        tauto

/-- A removal is recorded exactly for the reporters whose `report`
raised on the current message. -/
theorem deliver_removed_mem (j i : Nat) (m : Msg) (rs : List Reporter) :
    Ev.removed i ∈ (deliverMsg j m rs).2
      ↔ i ∈ (rs.filter fun r => !r.ok m).map Reporter.rid := by
  induction rs with
  | nil => simp [deliverMsg]
  | cons r rs ih =>
    rw [deliver_cons]
    by_cases h : r.ok m = true
    · rw [if_pos h]
      simp [-List.mem_map, h, ih, List.filter_cons]
    · have hb : r.ok m = false := by
        cases hok : r.ok m
        · rfl
        · exact absurd hok h
      rw [if_neg h]
      by_cases he : r.isEvent = true <;>
        simp [-List.mem_map, he, hb, ih, List.filter_cons]

/-- A failure-path `stop()` is invoked exactly for the Event reporters
whose `report` raised on the current message. -/
theorem deliver_stopped_mem (j i : Nat) (m : Msg) (rs : List Reporter) :
    Ev.stopped i ∈ (deliverMsg j m rs).2
      ↔ i ∈ (rs.filter fun r => !r.ok m && r.isEvent).map Reporter.rid := by
  induction rs with
  | nil => simp [deliverMsg]
  | cons r rs ih =>
    rw [deliver_cons]
    by_cases h : r.ok m = true
    · rw [if_pos h]
      simp [-List.mem_map, h, ih, List.filter_cons]
    · have hb : r.ok m = false := by
        cases hok : r.ok m
        · rfl
        · exact absurd hok h
      rw [if_neg h]
      by_cases he : r.isEvent = true <;>
        simp [-List.mem_map, he, hb, ih, List.filter_cons]

/-- The inner delivery loop never kills the process group. -/
theorem deliver_no_killed (j : Nat) (m : Msg) (rs : List Reporter) :
    Ev.killed ∉ (deliverMsg j m rs).2 := by
  induction rs with
  | nil => simp [deliverMsg]
  | cons r rs ih =>
    rw [deliver_cons]
    by_cases h : r.ok m = true
    · rw [if_pos h]
      simp [ih]
    · rw [if_neg h]
      by_cases he : r.isEvent = true <;> simp [he, ih]

/-- The hard-kill shutdown makes no `report` invocation. -/
theorem sigkill_no_attempt (i k : Nat) (rs : List Reporter) :
    Ev.attempt i k ∉ stopReportersAndSigkill rs := by
  simp only [stopReportersAndSigkill, stopReporters, List.mem_append,
    List.mem_singleton, List.mem_map]
  rintro (⟨r, _, h⟩ | h) <;> cases h

/-- The hard-kill shutdown removes no reporter. -/
theorem sigkill_no_removed (i : Nat) (rs : List Reporter) :
    Ev.removed i ∉ stopReportersAndSigkill rs := by
  simp only [stopReportersAndSigkill, stopReporters, List.mem_append,
    List.mem_singleton, List.mem_map]
  rintro (⟨r, _, h⟩ | h) <;> cases h

/-- The hard-kill shutdown always kills the process group. -/
theorem sigkill_killed_mem (rs : List Reporter) :
    Ev.killed ∈ stopReportersAndSigkill rs := by
  simp [stopReportersAndSigkill]

/-- `activeAt` at index 0 is the initial reporter list. -/
theorem activeAt_zero (msgs : List Msg) (rs : List Reporter) :
    activeAt msgs rs 0 = rs := by
  cases msgs <;> rfl

/-- `activeAt` beyond an empty message list. -/
theorem activeAt_nil_msgs (rs : List Reporter) (d : Nat) :
    activeAt [] rs d = rs := by
  cases d <;> rfl

/-- Unfolding `activeAt` across the first message. -/
theorem activeAt_cons (m : Msg) (ms : List Msg) (rs : List Reporter) (d : Nat) :
    activeAt (m :: ms) rs (d + 1)
      = if isFailedFinish m then [] else activeAt ms (stepActive m rs) d := rfl

/-- With no reporters left, none ever become active again. -/
theorem activeAt_empty (msgs : List Msg) : ∀ d : Nat, activeAt msgs [] d = [] := by
  induction msgs with
  | nil =>
    intro d
    cases d <;> rfl
  | cons m ms ih =>
    intro d
    cases d with
    | zero => rfl
    | succ d =>
      rw [activeAt_cons]
      by_cases h : isFailedFinish m = true
      · rw [if_pos h]
      · rw [if_neg h]
        exact ih d

/-- The active reporters at any index form a sublist of the initial
reporter list. -/
theorem activeAt_sublist (msgs : List Msg) : ∀ (rs : List Reporter) (d : Nat),
    (activeAt msgs rs d).Sublist rs := by
  induction msgs with
  | nil =>
    intro rs d
    rw [activeAt_nil_msgs]
  | cons m ms ih =>
    intro rs d
    cases d with
    | zero =>
      rw [activeAt_zero]
    | succ d =>
      rw [activeAt_cons]
      by_cases h : isFailedFinish m = true
      · rw [if_pos h]
        exact List.nil_sublist rs
      · rw [if_neg h]
        exact (ih (stepActive m rs) d).trans (List.filter_sublist rs)

/-- Running the active-set recursion for `a + b` steps equals running
it for `a` steps and then `b` more on the remaining messages. -/
theorem activeAt_add : ∀ (a : Nat) (msgs : List Msg) (rs : List Reporter) (b : Nat),
    activeAt msgs rs (a + b) = activeAt (msgs.drop a) (activeAt msgs rs a) b := by
  intro a
  induction a with
  | zero =>
    intro msgs rs b
    rw [List.drop_zero, activeAt_zero, Nat.zero_add]
  | succ a ih =>
    intro msgs rs b
    cases msgs with
    | nil =>
      rw [List.drop_nil, activeAt_nil_msgs, activeAt_nil_msgs, activeAt_nil_msgs]
    | cons m ms =>
      have hsum : a + 1 + b = (a + b) + 1 := by omega
      rw [hsum, activeAt_cons, List.drop_succ_cons, activeAt_cons]
      by_cases h : isFailedFinish m = true
      · rw [if_pos h, if_pos h, activeAt_empty]
      · rw [if_neg h, if_neg h]
        exact ih ms (stepActive m rs) b

/-- One step of the active-set recursion, phrased with the message at
index `d`. -/
theorem activeAt_succ (msgs : List Msg) (rs : List Reporter) (d : Nat)
    (hd : d < msgs.length) :
    activeAt msgs rs (d + 1)
      = if isFailedFinish (msgs.getD d (Msg.finish true)) then []
        else stepActive (msgs.getD d (Msg.finish true)) (activeAt msgs rs d) := by
  rw [activeAt_add d msgs rs 1, List.drop_eq_getElem_cons hd, activeAt_cons,
    List.getD_eq_getElem msgs (Msg.finish true) hd]
  by_cases h : isFailedFinish msgs[d] = true
  · rw [if_pos h, if_pos h]
  · rw [if_neg h, if_neg h, activeAt_zero]

/-- Reporter ids stay distinct along the run. -/
theorem activeAt_rid_nodup (msgs : List Msg) (rs : List Reporter)
    (hnd : (rs.map Reporter.rid).Nodup) (d : Nat) :
    ((activeAt msgs rs d).map Reporter.rid).Nodup :=
  List.Nodup.sublist ((activeAt_sublist msgs rs d).map Reporter.rid) hnd

/-- Once a reporter fails on the message at index `d`, its id never
again appears among the active reporters at any later index. -/
theorem rid_notin_activeAt_future (msgs : List Msg) (rs : List Reporter)
    (hnd : (rs.map Reporter.rid).Nodup) (d : Nat) (hd : d < msgs.length)
    (r : Reporter) (hr : r ∈ activeAt msgs rs d)
    (hfail : r.ok (msgs.getD d (Msg.finish true)) = false) :
    ∀ k, d < k → r.rid ∉ (activeAt msgs rs k).map Reporter.rid := by
  have hnd' : ((activeAt msgs rs d).map Reporter.rid).Nodup :=
    activeAt_rid_nodup msgs rs hnd d
  have h1 : r.rid ∉ (activeAt msgs rs (d + 1)).map Reporter.rid := by
    rw [activeAt_succ msgs rs d hd]
    by_cases hk : isFailedFinish (msgs.getD d (Msg.finish true)) = true
    · rw [if_pos hk]
      simp
    · rw [if_neg hk]
      intro hmem
      rcases List.mem_map.mp hmem with ⟨r2, hr2, heq⟩
      have hr2' : r2 ∈ activeAt msgs rs d := (List.filter_sublist _).subset hr2
      have hre : r2 = r := List.inj_on_of_nodup_map hnd' hr2' hr heq
      have hok : r2.ok (msgs.getD d (Msg.finish true)) = true :=
        (List.mem_filter.mp hr2).2
      rw [hre, hfail] at hok
      cases hok
  intro k hk
  obtain ⟨e, rfl⟩ : ∃ e, k = (d + 1) + e := ⟨k - (d + 1), by omega⟩
  rw [activeAt_add (d + 1) msgs rs e]
  intro hmem
  rcases List.mem_map.mp hmem with ⟨r2, hr2, heq⟩
  exact h1 (List.mem_map.mpr
    ⟨r2, (activeAt_sublist (msgs.drop (d + 1)) (activeAt msgs rs (d + 1)) e).subset hr2,
      heq⟩)

/-- Trace of the outer loop when the first message is a failing
`Finish`: deliver it, then stop the survivors and kill. -/
theorem reportAll_snd_cons_kill {m : Msg} (hk : isFailedFinish m = true)
    (j : Nat) (ms : List Msg) (rs : List Reporter) :
    (reportAllAux j (m :: ms) rs).2
      = (deliverMsg j m rs).2 ++ stopReportersAndSigkill (deliverMsg j m rs).1 := by
  simp only [reportAllAux]
  rw [if_pos hk]

/-- Trace of the outer loop when the first message is not a failing
`Finish`: deliver it and continue with the survivors. -/
theorem reportAll_snd_cons_ok {m : Msg} (hk : isFailedFinish m = false)
    (j : Nat) (ms : List Msg) (rs : List Reporter) :
    (reportAllAux j (m :: ms) rs).2
      = (deliverMsg j m rs).2 ++ (reportAllAux (j + 1) ms (deliverMsg j m rs).1).2 := by
  simp only [reportAllAux]
  rw [if_neg (by simp [hk])]

/-- A `report` invocation for reporter id `i` with message index `k`
occurs in the delivery-loop trace exactly when `i` is still active when
the message of that index is delivered. -/
theorem reportAll_attempt_iff (i k : Nat) : ∀ (msgs : List Msg) (j : Nat) (rs : List Reporter),
    Ev.attempt i k ∈ (reportAllAux j msgs rs).2
      ↔ ∃ d, d < msgs.length ∧ k = j + d ∧ i ∈ (activeAt msgs rs d).map Reporter.rid := by
  intro msgs
  induction msgs with
  | nil =>
    intro j rs
    simp [reportAllAux]
  | cons m ms ih =>
    intro j rs
    cases hkill : isFailedFinish m
    · rw [reportAll_snd_cons_ok hkill]
      constructor
      · intro hmem
        rcases List.mem_append.mp hmem with hmem | hmem
        · rcases (deliver_attempt_mem j k i m rs).mp hmem with ⟨rfl, hi⟩
          exact ⟨0, by simp, by omega, by simpa [activeAt_zero] using hi⟩
        · rcases (ih (j + 1) (deliverMsg j m rs).1).mp hmem with ⟨d, hd, hkk, hi⟩
          refine ⟨d + 1, by simpa using Nat.succ_lt_succ hd, by omega, ?_⟩
          rw [activeAt_cons, if_neg (by simp [hkill])]
          rw [deliver_fst] at hi
          exact hi
      · rintro ⟨d, hd, rfl, hi⟩
        cases d with
        | zero =>
          exact List.mem_append_left _
            ((deliver_attempt_mem j (j + 0) i m rs).mpr
              ⟨by omega, by simpa [activeAt_zero] using hi⟩)
        | succ d =>
          apply List.mem_append_right
          apply (ih (j + 1) (deliverMsg j m rs).1).mpr
          refine ⟨d, by simpa using Nat.lt_of_succ_lt_succ hd, by omega, ?_⟩
          rw [deliver_fst]
          rw [activeAt_cons, if_neg (by simp [hkill])] at hi
          exact hi
    · rw [reportAll_snd_cons_kill hkill]
      constructor
      · intro hmem
        rcases List.mem_append.mp hmem with hmem | hmem
        · rcases (deliver_attempt_mem j k i m rs).mp hmem with ⟨rfl, hi⟩
          exact ⟨0, by simp, by omega, by simpa [activeAt_zero] using hi⟩
        · exact absurd hmem (sigkill_no_attempt i k _)
      · rintro ⟨d, hd, rfl, hi⟩
        cases d with
        | zero =>
          exact List.mem_append_left _
            ((deliver_attempt_mem j (j + 0) i m rs).mpr
              ⟨by omega, by simpa [activeAt_zero] using hi⟩)
        | succ d =>
          rw [activeAt_cons, if_pos hkill] at hi
          simp at hi

/-- A reporter that raises while active is removed (and the failure
recorded) in the delivery-loop trace. -/
theorem reportAll_removed_of (i : Nat) : ∀ (msgs : List Msg) (j : Nat) (rs : List Reporter)
    (d : Nat), d < msgs.length →
    i ∈ ((activeAt msgs rs d).filter
          fun r => !r.ok (msgs.getD d (Msg.finish true))).map Reporter.rid →
    Ev.removed i ∈ (reportAllAux j msgs rs).2 := by
  intro msgs
  induction msgs with
  | nil =>
    intro j rs d hd
    simp at hd
  | cons m ms ih =>
    intro j rs d hd hi
    cases d with
    | zero =>
      have hmem : Ev.removed i ∈ (deliverMsg j m rs).2 :=
        (deliver_removed_mem j i m rs).mpr (by simpa [activeAt_zero] using hi)
      cases hkill : isFailedFinish m
      · rw [reportAll_snd_cons_ok hkill]
        exact List.mem_append_left _ hmem
      · rw [reportAll_snd_cons_kill hkill]
        exact List.mem_append_left _ hmem
    | succ d =>
      cases hkill : isFailedFinish m
      · rw [reportAll_snd_cons_ok hkill]
        apply List.mem_append_right
        apply ih (j + 1) (deliverMsg j m rs).1 d (by simpa using Nat.lt_of_succ_lt_succ hd)
        rw [deliver_fst]
        rw [activeAt_cons, if_neg (by simp [hkill])] at hi
        simpa using hi
      · rw [activeAt_cons, if_pos hkill] at hi
        simp at hi

/-- An Event reporter that raises while active has its `stop()` invoked
in the delivery-loop trace. -/
theorem reportAll_stopped_of (i : Nat) : ∀ (msgs : List Msg) (j : Nat) (rs : List Reporter)
    (d : Nat), d < msgs.length →
    i ∈ ((activeAt msgs rs d).filter
          fun r => !r.ok (msgs.getD d (Msg.finish true)) && r.isEvent).map Reporter.rid →
    Ev.stopped i ∈ (reportAllAux j msgs rs).2 := by
  intro msgs
  induction msgs with
  | nil =>
    intro j rs d hd
    simp at hd
  | cons m ms ih =>
    intro j rs d hd hi
    cases d with
    | zero =>
      have hmem : Ev.stopped i ∈ (deliverMsg j m rs).2 :=
        (deliver_stopped_mem j i m rs).mpr (by simpa [activeAt_zero] using hi)
      cases hkill : isFailedFinish m
      · rw [reportAll_snd_cons_ok hkill]
        exact List.mem_append_left _ hmem
      · rw [reportAll_snd_cons_kill hkill]
        exact List.mem_append_left _ hmem
    | succ d =>
      cases hkill : isFailedFinish m
      · rw [reportAll_snd_cons_ok hkill]
        apply List.mem_append_right
        apply ih (j + 1) (deliverMsg j m rs).1 d (by simpa using Nat.lt_of_succ_lt_succ hd)
        rw [deliver_fst]
        rw [activeAt_cons, if_neg (by simp [hkill])] at hi
        simpa using hi
      · rw [activeAt_cons, if_pos hkill] at hi
        simp at hi

/-- The process group is killed by the delivery loop exactly when the
message stream contains a `Finish` whose success flag is false. -/
theorem reportAll_killed_iff : ∀ (msgs : List Msg) (j : Nat) (rs : List Reporter),
    Ev.killed ∈ (reportAllAux j msgs rs).2 ↔ ∃ m ∈ msgs, isFailedFinish m = true := by
  intro msgs
  induction msgs with
  | nil =>
    intro j rs
    simp [reportAllAux]
  | cons m ms ih =>
    intro j rs
    cases hkill : isFailedFinish m
    · rw [reportAll_snd_cons_ok hkill]
      constructor
      · intro h
        rcases List.mem_append.mp h with h | h
        · exact absurd h (deliver_no_killed j m rs)
        · rcases (ih (j + 1) (deliverMsg j m rs).1).mp h with ⟨m2, hm2, hk2⟩
          exact ⟨m2, List.mem_cons_of_mem _ hm2, hk2⟩
      · rintro ⟨m2, hm2, hk2⟩
        rcases List.mem_cons.mp hm2 with rfl | hm2
        · rw [hkill] at hk2
          cases hk2
        · exact List.mem_append_right _ ((ih (j + 1) (deliverMsg j m rs).1).mpr ⟨m2, hm2, hk2⟩)
    · rw [reportAll_snd_cons_kill hkill]
      constructor
      · intro _
        exact ⟨m, List.mem_cons_self m ms, hkill⟩
      · intro _
        exact List.mem_append_right _ (sigkill_killed_mem _)

/-- C1: fault isolation in the reporter fan-out.  With distinct
reporter ids, if reporter `r` is still active at message index `d` and
its `report` raises there, then: every reporter active at any index is
invoked for that message (so the failure aborts neither the current
message nor the run); the failure is recorded and `r` is removed;
`stop()` is invoked on `r` if it is the Event sink; `r` is never
invoked again for any later message; and every other active reporter
whose `report` returns normally stays active for the next message. -/
theorem reporter_fault_isolation (msgs : List Msg) (rs : List Reporter)
    (hnd : (rs.map Reporter.rid).Nodup) (d : Nat) (r : Reporter)
    (hd : d < msgs.length) (hr : r ∈ activeAt msgs rs d)
    (hfail : r.ok (msgs.getD d (Msg.finish true)) = false) :
    (∀ k, k < msgs.length → ∀ r2, r2 ∈ activeAt msgs rs k →
        Ev.attempt r2.rid k ∈ (reportAllMessages msgs rs).2)
  ∧ Ev.removed r.rid ∈ (reportAllMessages msgs rs).2
  ∧ (r.isEvent = true → Ev.stopped r.rid ∈ (reportAllMessages msgs rs).2)
  ∧ (∀ k, d < k → Ev.attempt r.rid k ∉ (reportAllMessages msgs rs).2)
  ∧ (isFailedFinish (msgs.getD d (Msg.finish true)) = false →
      ∀ r2, r2 ∈ activeAt msgs rs d → r2.ok (msgs.getD d (Msg.finish true)) = true →
        r2 ∈ activeAt msgs rs (d + 1)) := by
  refine ⟨?_, ?_, ?_, ?_, ?_⟩
  · intro k hk r2 hr2
    exact (reportAll_attempt_iff r2.rid k msgs 0 rs).mpr
      ⟨k, hk, by omega, List.mem_map_of_mem _ hr2⟩
  · exact reportAll_removed_of r.rid msgs 0 rs d hd
      (List.mem_map_of_mem _ (List.mem_filter.mpr
        ⟨hr, by simp only [hfail, Bool.not_false]⟩))
  · intro he
    exact reportAll_stopped_of r.rid msgs 0 rs d hd
      (List.mem_map_of_mem _ (List.mem_filter.mpr
        ⟨hr, by simp only [hfail, he, Bool.not_false, Bool.and_self]⟩))
  · intro k hk hmem
    rcases (reportAll_attempt_iff r.rid k msgs 0 rs).mp hmem with ⟨d2, _, hkk, hi⟩
    have hd2 : d2 = k := by omega
    rw [hd2] at hi
    exact rid_notin_activeAt_future msgs rs hnd d hd r hr hfail k hk hi
  · intro hnk r2 hr2 hok
    rw [activeAt_succ msgs rs d hd, if_neg (by rw [hnk]; exact Bool.false_ne_true)]
    exact List.mem_filter.mpr ⟨hr2, hok⟩

/-- Witness for C1: two reporters; the Event reporter raises on the
`Running` message (index 1): its `stop()` is invoked, and it is not
invoked for the later `Exited` message (index 2). -/
theorem reporter_fault_isolation_witness :
    Ev.stopped 0 ∈ (reportAllMessages wMsgs wReps).2
  ∧ Ev.attempt 0 2 ∉ (reportAllMessages wMsgs wReps).2 := by
  have h := reporter_fault_isolation wMsgs wReps (by decide) 1 wRepA (by decide)
    (List.mem_cons_self _ _) rfl
  exact ⟨h.2.2.1 rfl, h.2.2.2.1 2 (by decide)⟩

/-- C3 counterexample: `_stop_reporters` only invokes `stop()` on
reporters that are Event sinks, so a remaining active File reporter is
not stopped by the shutdown path, contrary to the claim that all
remaining active reporters are stopped. -/
theorem shutdown_stops_all_counterexample :
    fileOnlyReporter ∈ [fileOnlyReporter]
  ∧ Ev.stopped fileOnlyReporter.rid ∉ stopReportersAndSigkill [fileOnlyReporter] :=
  ⟨List.mem_singleton.mpr rfl, by decide⟩

/-- C3 (amended): the shutdown path stops exactly the remaining active
Event reporters and then SIGKILLs the whole process group; the SIGTERM
handler is this very shutdown function; and within the delivery loop
the shutdown fires exactly upon a `Finish` message whose success flag
is false — the only other trigger being the signal handler. -/
theorem shutdown_path (rs : List Reporter) (msgs : List Msg) :
    stopReportersAndSigkill rs
      = ((rs.filter fun r => r.isEvent).map fun r => Ev.stopped r.rid) ++ [Ev.killed]
  ∧ sigtermHandler rs = stopReportersAndSigkill rs
  ∧ (Ev.killed ∈ (reportAllMessages msgs rs).2 ↔ ∃ m ∈ msgs, isFailedFinish m = true) :=
  ⟨rfl, rfl, reportAll_killed_iff msgs 0 rs⟩
